import Mathlib

/-!
Verification of the fetch-paginate-cache-rank pipeline of the proxy server
(src/ProxyServer.js).  The JavaScript source is shallowly embedded: numbers
arriving from the upstream JSON API are modelled as exact rationals, machine
integers as Int, absent or null JSON fields as Option, the in-memory cache as
a function from place ids to optional entries, and the side effects of the
pagination loop (page fetches and the 300 ms sleeps) as an explicit event
trace.  Fallible upstream calls are modelled as Except values carrying the
HTTP status code of a failed response.
-/

namespace ProxyServer

/-- Constant from line 6 of the source: how many pages of servers to fetch. -/
def MAX_PAGES : Nat := 3

/-- Constant from line 11 of the source: cache results for 20 seconds. -/
def CACHE_TTL_MS : Int := 20000

/-- Model of JavaScript Math.round applied to an exact rational: the value
rounded to the nearest integer, halves toward positive infinity, that is
floor of (q + 1/2).  Written with integer division by the positive
denominator so that it evaluates by kernel reduction; the theorem
jsRound_eq_floor below proves it equal to the floor form. -/
def jsRound (q : ℚ) : Int := (2 * q.num + (q.den : Int)) / (2 * (q.den : Int))

/-- Modelled from the spec: the rounding law the specification asserts,
round half away from zero (and round to nearest elsewhere).  Only used to
compare against the rounding the source actually performs. -/
def roundHalfAwayFromZero (q : ℚ) : Int :=
  if 0 ≤ q then ⌊q + 1/2⌋ else -⌊-q + 1/2⌋

/-- Raw upstream server record, the shape of one element of the data array
of an upstream page (spec section 3; consumed at lines 74-83 of the source).
Fields that upstream may omit or null are Options; numeric JSON fields that
may be fractional are rationals. -/
structure RawServerRecord where
  id : String
  playing : Option Int
  maxPlayers : Option Int
  fps : Option ℚ
  ping : Option ℚ
deriving DecidableEq

/-- Canonical server record as pushed onto allServers at lines 76-82 of the
source: jobId, players, maxPlayers with defaults, fps and ping rounded. -/
structure CanonicalServerRecord where
  jobId : String
  players : Int
  maxPlayers : Int
  fps : Int
  ping : Int
deriving DecidableEq

/-- Normalization of one raw record, lines 76-82 of the source:
players = s.playing ?? 0, maxPlayers = s.maxPlayers ?? 20,
fps = Math.round(s.fps ?? 60), ping = Math.round(s.ping ?? 0). -/
def normalize (s : RawServerRecord) : CanonicalServerRecord :=
  { jobId := s.id
    players := s.playing.getD 0
    maxPlayers := s.maxPlayers.getD 20
    fps := jsRound (s.fps.getD 60)
    ping := jsRound (s.ping.getD 0) }

/-- Score used by the sort comparator at lines 94-95 of the source:
players * 10 + (fps > 30 ? 5 : 0). -/
def score (r : CanonicalServerRecord) : Int :=
  r.players * 10 + (if 30 < r.fps then 5 else 0)

/-- Ordering produced by the comparator (scoreB - scoreA): descending by
score. -/
def byScoreDesc (a b : CanonicalServerRecord) : Prop := score b ≤ score a

/-- One step of the stable descending sort: insert a record after every
record of score greater than or equal to its own and before the first of
strictly smaller score.  Any stable sort with the comparator of lines 93-97
produces the result of repeated insertion, since Array.prototype.sort is
required to be stable. -/
def insertDesc (a : CanonicalServerRecord) :
    List CanonicalServerRecord → List CanonicalServerRecord
  | [] => [a]
  | b :: l => if score b < score a then a :: b :: l else b :: insertDesc a l

/-- Left fold of the stable insertion: earlier records are inserted first,
so ties keep their input order. -/
def rankGo : List CanonicalServerRecord → List CanonicalServerRecord →
    List CanonicalServerRecord
  | [], acc => acc
  | a :: t, acc => rankGo t (insertDesc a acc)

/-- The in-place allServers.sort of lines 93-97: stable sort, descending by
score. -/
def rank (l : List CanonicalServerRecord) : List CanonicalServerRecord :=
  rankGo l []

/-- Model of Array.prototype.slice(0, e) used at line 100: for nonnegative e
the prefix of length at most e, for negative e everything but the last |e|
elements. -/
def jsSlice {α : Type} (l : List α) (e : Int) : List α :=
  if e < 0 then l.take ((l.length : Int) + e).toNat else l.take e.toNat

/-- One upstream page as returned by fetchServerPage (line 42): the data
array and the optional nextPageCursor. -/
structure Page where
  data : List RawServerRecord
  nextPageCursor : Option String
deriving DecidableEq

/-- Observable events of the pagination loop: one upstream page fetch, or
one await sleep(300) at line 89. -/
inductive Ev where
  | fetch : Ev
  | sleep300 : Ev
deriving DecidableEq

/-- Number of page fetches recorded in a trace. -/
def numFetches : List Ev → Nat
  | [] => 0
  | Ev.fetch :: t => numFetches t + 1
  | Ev.sleep300 :: t => numFetches t

/-- Truthiness of the cursor assigned at line 85: undefined (none) and the
empty string are falsy; any other string continues pagination. -/
def continueCursor : Option String → Option String
  | none => none
  | some s => if s = "" then none else some s

/-- An upstream collaborator: maps the cursor sent to fetchServerPage to
either a page or the HTTP status code of a non-success response (line 38-40
of the source throw on !res.ok). -/
def Upstream : Type := String → Except Nat Page

/-- The pagination loop of lines 70-90, by remaining page budget
(MAX_PAGES - pages).  Returns the aggregation outcome (records accumulated,
or the status of the failed fetch, which aborts immediately) together with
the trace of fetches and sleeps in order.  The sleep at line 89 runs before
the while condition is re-checked, so a final iteration that decides to
continue sleeps even when the page budget is exhausted. -/
def aggLoop (up : Upstream) (limit : Int) :
    Nat → String → List CanonicalServerRecord →
    Except Nat (List CanonicalServerRecord) × List Ev
  | 0, _, acc => (Except.ok acc, [])
  | fuel + 1, cur, acc =>
    match up cur with
    | Except.error st => (Except.error st, [Ev.fetch])
    | Except.ok page =>
      let acc2 := acc ++ page.data.map normalize
      match continueCursor page.nextPageCursor with
      | none => (Except.ok acc2, [Ev.fetch])
      | some c2 =>
        if limit * 2 ≤ (acc2.length : Int) then (Except.ok acc2, [Ev.fetch])
        else
          ((aggLoop up limit fuel c2 acc2).1,
            Ev.fetch :: Ev.sleep300 :: (aggLoop up limit fuel c2 acc2).2)

/-- Aggregation for one request: the loop starting from the empty cursor and
an empty accumulator with the full page budget. -/
def aggregate (up : Upstream) (limit : Int) :
    Except Nat (List CanonicalServerRecord) × List Ev :=
  aggLoop up limit MAX_PAGES "" []

/-- Whitespace skipped by the JavaScript string-to-number conversions. -/
def wsChar (c : Char) : Bool := c = ' ' ∨ c = '\t' ∨ c = '\n' ∨ c = '\r'

/-- Value of a list of decimal digit characters. -/
def digitsToNat (cs : List Char) : Nat :=
  cs.foldl (fun a c => a * 10 + (c.toNat - 48)) 0

/-- Longest leading run of decimal digits, or none when there is none. -/
def parseDigits (cs : List Char) : Option Nat :=
  if cs.takeWhile Char.isDigit = [] then none
  else some (digitsToNat (cs.takeWhile Char.isDigit))

/-- Model of JavaScript parseInt in base 10 as applied at line 51: skip
leading whitespace, optional sign, longest run of decimal digits, trailing
characters ignored; none models NaN.  Hexadecimal prefix forms are not
modelled (nothing in the pipeline depends on them). -/
def parseIntJs (s : String) : Option Int :=
  match s.toList.dropWhile wsChar with
  | '-' :: rest => (parseDigits rest).map (fun n => -(n : Int))
  | '+' :: rest => (parseDigits rest).map (fun n => (n : Int))
  | rest => (parseDigits rest).map (fun n => (n : Int))

/-- Strip one optional leading sign. -/
def dropSign : List Char → List Char
  | '+' :: r => r
  | '-' :: r => r
  | r => r

/-- Exponent part of a JavaScript numeric literal after the e: optional sign
then at least one digit and nothing else. -/
def expOk (cs : List Char) : Bool :=
  decide (dropSign cs ≠ []) && (dropSign cs).all Char.isDigit

/-- Remainder of a JavaScript decimal literal after its integer digits:
nothing, a fractional part, or an exponent; hasDigits records whether any
integer digits were present. -/
def numTail (hasDigits : Bool) : List Char → Bool
  | [] => hasDigits
  | '.' :: r =>
    (hasDigits || decide (r.takeWhile Char.isDigit ≠ [])) &&
      (match r.dropWhile Char.isDigit with
       | [] => true
       | e :: r3 => (e == 'e' || e == 'E') && expOk r3)
  | e :: r3 => hasDigits && (e == 'e' || e == 'E') && expOk r3

/-- Signed decimal literal body (digits, optional fraction and exponent) or
Infinity. -/
def strNumericBody (cs : List Char) : Bool :=
  if dropSign cs = "Infinity".toList then true
  else numTail (decide ((dropSign cs).takeWhile Char.isDigit ≠ []))
    ((dropSign cs).dropWhile Char.isDigit)

/-- Model of isNaN(Number(s)) as used in the validation at line 53: the
string is trimmed; an empty or all-whitespace string converts to 0 (not
NaN); otherwise it must be a signed decimal literal or Infinity.
Hexadecimal, octal and binary literal forms are not modelled (nothing in
the claims depends on them). -/
def jsNumberIsNaN (s : String) : Bool :=
  match s.toList.dropWhile wsChar with
  | [] => false
  | cs => !(strNumericBody ((cs.reverse.dropWhile wsChar).reverse))

/-- Effective limit computed at line 51 of the source:
Math.min(parseInt(req.query.limit) || 30, 100).  parseInt of an absent
parameter is NaN; NaN and 0 are falsy, so both become 30.  Note there is no
lower bound. -/
def effectiveLimit (limQ : Option String) : Int :=
  min
    (match limQ.bind parseIntJs with
     | none => 30
     | some v => if v = 0 then 30 else v)
    100

/-- The response object built at lines 102-107 for a successful request. -/
structure ResponseData where
  placeId : String
  total : Nat
  count : Nat
  servers : List CanonicalServerRecord
deriving DecidableEq

/-- Outcome of one request: 200 with data, 400 with an error message
(line 54), or 500 with an error message (line 117). -/
inductive Response where
  | ok : ResponseData → Response
  | badRequest : String → Response
  | serverError : String → Response
deriving DecidableEq

/-- One cache entry as stored at line 110: the response data and the
timestamp of its creation. -/
structure CacheEntry where
  data : ResponseData
  timestamp : Int
deriving DecidableEq

/-- The process-wide cache Map of line 10, keyed by placeId. -/
def Cache : Type := String → Option CacheEntry

/-- cache.set(placeId, entry) of line 110: overwrite the entry for one key. -/
def updateCache (c : Cache) (k : String) (e : CacheEntry) : Cache :=
  fun k2 => if k2 = k then some e else c k2

/-- Message of the error thrown at line 39 for a non-success upstream
status. -/
def upstreamErrMsg (st : Nat) (pid : String) : String :=
  "Roblox API returned " ++ toString st ++ " for placeId " ++ pid

/-- Sorting, trimming and packaging of lines 93-107: rank the accumulated
records, slice to the limit, record total (length before trimming) and
count (length after trimming). -/
def buildResponseData (pid : String) (recs : List CanonicalServerRecord)
    (limit : Int) : ResponseData :=
  { placeId := pid
    total := (rank recs).length
    count := (jsSlice (rank recs) limit).length
    servers := jsSlice (rank recs) limit }

/-- The cache-miss path of the /servers handler (lines 65-113): aggregate,
rank, trim, store in the cache, or surface the upstream failure as a 500
with the cache untouched (lines 115-118). -/
def missPath (up : Upstream) (pid : String) (limit : Int) (cache : Cache)
    (now : Int) : Response × Cache × List Ev :=
  match aggregate up limit with
  | (Except.error st, tr) =>
    (Response.serverError (upstreamErrMsg st pid), cache, tr)
  | (Except.ok recs, tr) =>
    (Response.ok (buildResponseData pid recs limit),
      updateCache cache pid (CacheEntry.mk (buildResponseData pid recs limit) now),
      tr)

/-- The GET /servers handler of lines 49-119.  Arguments: the upstream
collaborator, the raw placeId and limit query parameters (none when
absent), the cache state and the current time.  Returns the response, the
new cache state and the trace of upstream events. -/
def handle (up : Upstream) (pidQ limQ : Option String) (cache : Cache)
    (now : Int) : Response × Cache × List Ev :=
  match pidQ with
  | none => (Response.badRequest "Missing or invalid placeId", cache, [])
  | some pid =>
    if pid = "" ∨ jsNumberIsNaN pid = true then
      (Response.badRequest "Missing or invalid placeId", cache, [])
    else
      match cache pid with
      | some e =>
        if now - e.timestamp < CACHE_TTL_MS then (Response.ok e.data, cache, [])
        else missPath up pid (effectiveLimit limQ) cache now
      | none => missPath up pid (effectiveLimit limQ) cache now

/-- Shape of a pagination trace with n fetches: fetches separated by
sleeps, with one trailing sleep when the loop decided to continue right
before running out of page budget. -/
def mkTrace : Nat → Bool → List Ev
  | 0, _ => []
  | 1, b => if b then [Ev.fetch, Ev.sleep300] else [Ev.fetch]
  | n + 2, b => Ev.fetch :: Ev.sleep300 :: mkTrace (n + 1) b

/-- Rounding model agrees with floor of (q + 1/2), the textbook description
of rounding halves toward positive infinity. -/
theorem jsRound_eq_floor (q : ℚ) : jsRound q = ⌊q + 1/2⌋ := by
  rw [jsRound]
  rcases q with ⟨n, d, hd0, hred⟩
  simp only
  have hq : (⟨n, d, hd0, hred⟩ : ℚ) = (n : ℚ) / (d : ℚ) := (Rat.num_div_den _).symm
  rw [hq]
  have hdq : ((d : ℚ)) ≠ 0 := Nat.cast_ne_zero.mpr hd0
  have h : (n : ℚ) / (d : ℚ) + 1/2 = (((2 * n + (d : ℤ) : ℤ) : ℚ)) / (((2 * d : ℕ) : ℚ)) := by
    push_cast
    field_simp
    ring
  rw [h, Rat.floor_intCast_div_natCast]
  push_cast
  rfl

/-- Boolean test for membership in one score class. -/
def scoreIs (s : Int) (r : CanonicalServerRecord) : Bool := decide (score r = s)

theorem insertDesc_perm (a : CanonicalServerRecord) :
    ∀ l, List.Perm (insertDesc a l) (a :: l) := by
  intro l
  induction l with
  | nil => exact List.Perm.refl _
  | cons b t ih =>
    rw [insertDesc]
    split_ifs with hlt
    · exact List.Perm.refl _
    · exact (ih.cons b).trans (List.Perm.swap a b t)

theorem insertDesc_pairwise (a : CanonicalServerRecord) :
    ∀ l, l.Pairwise byScoreDesc → (insertDesc a l).Pairwise byScoreDesc := by
  intro l
  induction l with
  | nil => intro _; simp [insertDesc, byScoreDesc]
  | cons b t ih =>
    intro h
    rw [List.pairwise_cons] at h
    obtain ⟨hb, ht⟩ := h
    rw [insertDesc]
    split_ifs with hlt
    · refine List.Pairwise.cons ?_ (List.Pairwise.cons hb ht)
      intro y hy
      rcases List.mem_cons.mp hy with rfl | hy2
      · exact le_of_lt hlt
      · exact le_trans (hb y hy2) (le_of_lt hlt)
    · refine List.Pairwise.cons ?_ (ih ht)
      intro y hy
      rcases List.mem_cons.mp ((insertDesc_perm a t).mem_iff.mp hy) with rfl | hy2
      · exact le_of_not_lt hlt
      · exact hb y hy2

theorem filter_scoreIs_nil (s : Int) :
    ∀ l : List CanonicalServerRecord,
      (∀ x ∈ l, score x < s) → l.filter (scoreIs s) = [] := by
  intro l
  induction l with
  | nil => intro _; rfl
  | cons b t ih =>
    intro h
    rw [List.filter_cons]
    have hb : scoreIs s b = false := by
      simp only [scoreIs, decide_eq_false_iff_not]
      exact ne_of_lt (h b (List.mem_cons_self b t))
    simp only [hb, Bool.false_eq_true, if_false]
    exact ih (fun x hx => h x (List.mem_cons_of_mem _ hx))

theorem filter_insertDesc (s : Int) (a : CanonicalServerRecord) :
    ∀ l, l.Pairwise byScoreDesc →
      (insertDesc a l).filter (scoreIs s) =
        l.filter (scoreIs s) ++ (if score a = s then [a] else []) := by
  intro l
  induction l with
  | nil =>
    intro _
    by_cases h : score a = s <;> simp [insertDesc, scoreIs, h]
  | cons b t ih =>
    intro hl
    rw [List.pairwise_cons] at hl
    obtain ⟨hb, ht⟩ := hl
    rw [insertDesc]
    by_cases hlt : score b < score a
    · rw [if_pos hlt]
      by_cases ha : score a = s
      · have hnil : (b :: t).filter (scoreIs s) = [] := by
          refine filter_scoreIs_nil s (b :: t) ?_
          intro x hx
          rcases List.mem_cons.mp hx with rfl | hx2
          · exact ha ▸ hlt
          · exact lt_of_le_of_lt (hb x hx2) (ha ▸ hlt)
        have has : scoreIs s a = true := by simp [scoreIs, ha]
        simp [List.filter_cons, has, ha, hnil]
      · have has : scoreIs s a = false := by simp [scoreIs, ha]
        simp [List.filter_cons, has, ha]
    · rw [if_neg hlt]
      by_cases hbs : scoreIs s b = true
      · simp [List.filter_cons, hbs, ih ht]
      · simp [List.filter_cons, hbs, ih ht]

theorem rankGo_perm : ∀ l acc, List.Perm (rankGo l acc) (acc ++ l) := by
  intro l
  induction l with
  | nil => intro acc; simp [rankGo]
  | cons a t ih =>
    intro acc
    rw [rankGo]
    refine (ih (insertDesc a acc)).trans ?_
    refine (List.Perm.append_right t (insertDesc_perm a acc)).trans ?_
    exact (List.perm_middle).symm

theorem rankGo_pairwise :
    ∀ l acc, acc.Pairwise byScoreDesc → (rankGo l acc).Pairwise byScoreDesc := by
  intro l
  induction l with
  | nil => intro acc h; exact h
  | cons a t ih =>
    intro acc h
    exact ih (insertDesc a acc) (insertDesc_pairwise a acc h)

theorem rankGo_filter (s : Int) :
    ∀ l acc, acc.Pairwise byScoreDesc →
      (rankGo l acc).filter (scoreIs s) =
        acc.filter (scoreIs s) ++ l.filter (scoreIs s) := by
  intro l
  induction l with
  | nil => intro acc _; simp [rankGo]
  | cons a t ih =>
    intro acc h
    rw [rankGo, ih (insertDesc a acc) (insertDesc_pairwise a acc h),
      filter_insertDesc s a acc h, List.filter_cons]
    by_cases ha : score a = s
    · have : scoreIs s a = true := by simp [scoreIs, ha]
      simp [ha, this, List.append_assoc]
    · have : scoreIs s a = true ↔ False := by simp [scoreIs, ha]
      simp [ha, this]

theorem rank_perm (l : List CanonicalServerRecord) : List.Perm (rank l) l := by
  simpa using rankGo_perm l []

theorem rank_pairwise (l : List CanonicalServerRecord) :
    (rank l).Pairwise byScoreDesc :=
  rankGo_pairwise l [] List.Pairwise.nil

theorem rank_filter (s : Int) (l : List CanonicalServerRecord) :
    (rank l).filter (scoreIs s) = l.filter (scoreIs s) := by
  simpa using rankGo_filter s l [] List.Pairwise.nil

theorem rank_length (l : List CanonicalServerRecord) :
    (rank l).length = l.length :=
  (rank_perm l).length_eq

theorem numFetches_mkTrace_succ :
    ∀ n : Nat, ∀ b : Bool, numFetches (mkTrace (n + 1) b) = n + 1 := by
  intro n
  induction n with
  | zero => intro b; cases b <;> rfl
  | succ m ih =>
    intro b
    have h2 : mkTrace (m + 2) b = Ev.fetch :: Ev.sleep300 :: mkTrace (m + 1) b := rfl
    rw [h2, numFetches, numFetches, ih b]

theorem numFetches_mkTrace : ∀ n : Nat, ∀ b : Bool, numFetches (mkTrace n b) = n := by
  intro n b
  cases n with
  | zero => rfl
  | succ m => exact numFetches_mkTrace_succ m b

theorem mkTrace_false_concat :
    ∀ n : Nat, ∃ l, mkTrace (n + 1) false = l ++ [Ev.fetch] := by
  intro n
  induction n with
  | zero => exact ⟨[], rfl⟩
  | succ m ih =>
    obtain ⟨l, hl⟩ := ih
    have h2 : mkTrace (m + 2) false = Ev.fetch :: Ev.sleep300 :: mkTrace (m + 1) false := rfl
    exact ⟨Ev.fetch :: Ev.sleep300 :: l, by rw [h2, hl]; rfl⟩

theorem mkTrace_getLast_sleep :
    ∀ n : Nat, ∀ b : Bool, (mkTrace n b).getLast? = some Ev.sleep300 → b = true := by
  intro n b h
  cases b with
  | true => rfl
  | false =>
    exfalso
    cases n with
    | zero => simp [mkTrace] at h
    | succ m =>
      obtain ⟨l, hl⟩ := mkTrace_false_concat m
      rw [hl, List.getLast?_concat] at h
      exact Ev.noConfusion (Option.some.inj h)

/-- Structure of every pagination trace: some number n of fetches separated
by sleeps, with a trailing sleep only possible when the whole page budget
was spent. -/
theorem aggLoop_shape (up : Upstream) (limit : Int) :
    ∀ fuel : Nat, ∀ cur : String, ∀ acc : List CanonicalServerRecord,
      ∃ n b, (aggLoop up limit fuel cur acc).2 = mkTrace n b ∧
        n ≤ fuel ∧ (b = true → n = fuel) ∧ (1 ≤ n ∨ fuel = 0) := by
  intro fuel
  induction fuel with
  | zero =>
    intro cur acc
    exact ⟨0, false, rfl, le_refl 0, by simp, Or.inr rfl⟩
  | succ fuel ih =>
    intro cur acc
    cases hup : up cur with
    | error st =>
      refine ⟨1, false, ?_, Nat.succ_le_succ (Nat.zero_le fuel), by simp, Or.inl (le_refl 1)⟩
      simp [aggLoop, hup, mkTrace]
    | ok page =>
      cases hc : continueCursor page.nextPageCursor with
      | none =>
        refine ⟨1, false, ?_, Nat.succ_le_succ (Nat.zero_le fuel), by simp, Or.inl (le_refl 1)⟩
        simp [aggLoop, hup, hc, mkTrace]
      | some c2 =>
        by_cases hg : limit * 2 ≤ (((acc ++ page.data.map normalize).length : Int))
        · refine ⟨1, false, ?_, Nat.succ_le_succ (Nat.zero_le fuel), by simp, Or.inl (le_refl 1)⟩
          simp only [aggLoop, hup, hc]
          rw [if_pos hg]
          rfl
        · obtain ⟨n, b, htr, hn, hb, hpos⟩ := ih c2 (acc ++ page.data.map normalize)
          rcases hpos with hn1 | hfuel0
          · refine ⟨n + 1, b, ?_, Nat.succ_le_succ hn, fun h => by rw [hb h],
              Or.inl (Nat.le_add_left 1 n)⟩
            obtain ⟨m, rfl⟩ : ∃ m, n = m + 1 := ⟨n - 1, (Nat.succ_pred_eq_of_pos hn1).symm⟩
            simp only [aggLoop, hup, hc]
            rw [if_neg hg, htr]
            rfl
          · subst hfuel0
            refine ⟨1, true, ?_, le_refl 1, fun _ => rfl, Or.inl (le_refl 1)⟩
            simp only [aggLoop, hup, hc]
            rw [if_neg hg]
            rfl

/-- The loop never fetches more pages than its budget. -/
theorem aggLoop_fetch_le (up : Upstream) (limit : Int) (fuel : Nat) (cur : String)
    (acc : List CanonicalServerRecord) :
    numFetches (aggLoop up limit fuel cur acc).2 ≤ fuel := by
  obtain ⟨n, b, htr, hn, -, -⟩ := aggLoop_shape up limit fuel cur acc
  rw [htr, numFetches_mkTrace n b]
  exact hn

/-- After a page with no continuation cursor, or one that brings the
accumulated count to at least limit * 2, the loop stops: exactly one fetch
and no sleep happen from that point. -/
theorem aggLoop_stop (up : Upstream) (limit : Int) (fuel : Nat) (cur : String)
    (acc : List CanonicalServerRecord) (page : Page)
    (hup : up cur = Except.ok page)
    (hstop : continueCursor page.nextPageCursor = none ∨
      limit * 2 ≤ (((acc ++ page.data.map normalize).length : Int))) :
    (aggLoop up limit (fuel + 1) cur acc).2 = [Ev.fetch] := by
  rcases hstop with h | h
  · simp [aggLoop, hup, h]
  · cases hc : continueCursor page.nextPageCursor with
    | none => simp [aggLoop, hup, hc]
    | some c2 =>
      simp only [aggLoop, hup, hc]
      rw [if_pos h]

/-- A failed fetch aborts aggregation at once: the error is returned and the
iteration contributes exactly one fetch event. -/
theorem aggLoop_error (up : Upstream) (limit : Int) (fuel : Nat) (cur : String)
    (acc : List CanonicalServerRecord) (st : Nat)
    (hup : up cur = Except.error st) :
    aggLoop up limit (fuel + 1) cur acc = (Except.error st, [Ev.fetch]) := by
  simp [aggLoop, hup]

/-- Concrete raw record: 1 player, 20 max, 60 fps, 0 ping. -/
def rawTiny : RawServerRecord := ⟨"a", some 1, some 20, some 60, some 0⟩

/-- Concrete raw record distinct from rawTiny, standing for changed
upstream data. -/
def rawTiny2 : RawServerRecord := ⟨"b", some 2, some 20, some 60, some 0⟩

/-- Concrete raw records with 3, 2 and 1 players. -/
def raw3a : RawServerRecord := ⟨"x1", some 3, some 20, some 60, some 0⟩

def raw3b : RawServerRecord := ⟨"x2", some 2, some 20, some 60, some 0⟩

def raw3c : RawServerRecord := ⟨"x3", some 1, some 20, some 60, some 0⟩

/-- The rational -3/2, a fractional upstream value. -/
def ratNeg32 : ℚ := ⟨-3, 2, by decide, by decide⟩

/-- Raw record with every optional field missing except a fractional
ping of -3/2. -/
def rawHalf : RawServerRecord := ⟨"j", none, none, none, some ratNeg32⟩

/-- The empty cache. -/
def emptyCache : Cache := fun _ => none

/-- Upstream that answers every fetch with HTTP status 429. -/
def up429 : Upstream := fun _ => Except.error 429

/-- Upstream with a single one-record page and no continuation cursor. -/
def upOne : Upstream := fun _ => Except.ok ⟨[rawTiny], none⟩

/-- Upstream like upOne but with different data, standing for upstream
state that changed between two requests. -/
def upOne2 : Upstream := fun _ => Except.ok ⟨[rawTiny2], none⟩

/-- Upstream that always returns one record and a live cursor, so
pagination only stops at the page budget. -/
def upLoop : Upstream := fun _ => Except.ok ⟨[rawTiny], some "c"⟩

/-- Upstream with a single three-record page. -/
def upThree : Upstream := fun _ => Except.ok ⟨[raw3a, raw3b, raw3c], none⟩

/-- Upstream whose every page has 100 records and a live cursor. -/
def upHundred : Upstream := fun _ => Except.ok ⟨List.replicate 100 rawTiny, some "c"⟩


theorem handle_invalid_some (up : Upstream) (pid : String) (limQ : Option String)
    (cache : Cache) (now : Int) (h : pid = "" ∨ jsNumberIsNaN pid = true) :
    handle up (some pid) limQ cache now =
      (Response.badRequest "Missing or invalid placeId", cache, []) := by
  simp only [handle]
  rw [if_pos h]

theorem handle_hit (up : Upstream) (pid : String) (limQ : Option String)
    (cache : Cache) (now : Int) (e : CacheEntry)
    (hv : ¬(pid = "" ∨ jsNumberIsNaN pid = true)) (he : cache pid = some e)
    (hf : now - e.timestamp < CACHE_TTL_MS) :
    handle up (some pid) limQ cache now = (Response.ok e.data, cache, []) := by
  simp only [handle, he]
  rw [if_neg hv, if_pos hf]

theorem handle_stale (up : Upstream) (pid : String) (limQ : Option String)
    (cache : Cache) (now : Int) (e : CacheEntry)
    (hv : ¬(pid = "" ∨ jsNumberIsNaN pid = true)) (he : cache pid = some e)
    (hs : ¬(now - e.timestamp < CACHE_TTL_MS)) :
    handle up (some pid) limQ cache now =
      missPath up pid (effectiveLimit limQ) cache now := by
  simp only [handle, he]
  rw [if_neg hv, if_neg hs]

theorem handle_miss (up : Upstream) (pid : String) (limQ : Option String)
    (cache : Cache) (now : Int)
    (hv : ¬(pid = "" ∨ jsNumberIsNaN pid = true)) (he : cache pid = none) :
    handle up (some pid) limQ cache now =
      missPath up pid (effectiveLimit limQ) cache now := by
  simp only [handle, he]
  rw [if_neg hv]

theorem missPath_error (up : Upstream) (pid : String) (limit : Int)
    (cache : Cache) (now : Int) (st : Nat) (tr : List Ev)
    (h : aggregate up limit = (Except.error st, tr)) :
    missPath up pid limit cache now =
      (Response.serverError (upstreamErrMsg st pid), cache, tr) := by
  simp only [missPath, h]

theorem missPath_ok (up : Upstream) (pid : String) (limit : Int)
    (cache : Cache) (now : Int) (recs : List CanonicalServerRecord)
    (tr : List Ev) (h : aggregate up limit = (Except.ok recs, tr)) :
    missPath up pid limit cache now =
      (Response.ok (buildResponseData pid recs limit),
        updateCache cache pid (CacheEntry.mk (buildResponseData pid recs limit) now),
        tr) := by
  simp only [missPath, h]

theorem updateCache_self (c : Cache) (k : String) (e : CacheEntry) :
    updateCache c k e k = some e := by
  simp [updateCache]

/-- C2: for every list of canonical server records, ranking returns the same
multiset (a permutation), sorted descending by score = players * 10 +
(fps > 30 ? 5 : 0), and records with equal scores keep their relative input
order: for every score value, filtering the ranked list to that score class
gives exactly the same sequence as filtering the input. -/
theorem rank_stable_sorted_perm :
    ∀ l : List CanonicalServerRecord,
      List.Perm (rank l) l ∧
      (rank l).Pairwise byScoreDesc ∧
      ∀ s : Int, (rank l).filter (scoreIs s) = l.filter (scoreIs s) :=
  fun l => ⟨rank_perm l, rank_pairwise l, fun s => rank_filter s l⟩

/-- C4: aggregation never issues more than MAX_PAGES = 3 page fetches; once
a page comes back with no continuation cursor, or brings the accumulated
record count to at least limit * 2, that iteration is the last: exactly one
fetch happens from it on; and in the scenario limit = 10 with 100-record
pages, aggregation stops after page 1. -/
theorem aggregation_fetch_bounds :
    (∀ up : Upstream, ∀ limit : Int,
      numFetches (aggregate up limit).2 ≤ MAX_PAGES) ∧
    (∀ up : Upstream, ∀ limit : Int, ∀ fuel : Nat, ∀ cur : String,
      ∀ acc : List CanonicalServerRecord, ∀ page : Page,
      up cur = Except.ok page →
      (continueCursor page.nextPageCursor = none ∨
        limit * 2 ≤ (((acc ++ page.data.map normalize).length : Int))) →
      (aggLoop up limit (fuel + 1) cur acc).2 = [Ev.fetch]) ∧
    (∀ up : Upstream,
      (∀ c page, up c = Except.ok page → page.data.length = 100) →
      numFetches (aggregate up 10).2 = 1) := by
  refine ⟨fun up limit => aggLoop_fetch_le up limit MAX_PAGES "" [],
    fun up limit fuel cur acc page hup hstop =>
      aggLoop_stop up limit fuel cur acc page hup hstop,
    fun up h100 => ?_⟩
  cases hup : up "" with
  | error st =>
    have h : (aggregate up 10).2 = [Ev.fetch] :=
      congrArg Prod.snd (aggLoop_error up 10 2 "" [] st hup)
    rw [h]
    rfl
  | ok page =>
    have hlen : page.data.length = 100 := h100 "" page hup
    have hstop : continueCursor page.nextPageCursor = none ∨
        (10 : Int) * 2 ≤ (((([] : List CanonicalServerRecord) ++
          page.data.map normalize).length : Int)) := by
      right
      simp [hlen]
    have h : (aggregate up 10).2 = [Ev.fetch] :=
      aggLoop_stop up 10 2 "" [] page hup hstop
    rw [h]
    rfl

/-- C4 witness: the bound at a looping upstream, the early stop at a
cursor-free page, and the 100-record scenario, all at concrete inputs. -/
theorem aggregation_fetch_bounds_witness :
    numFetches (aggregate upLoop 50).2 ≤ MAX_PAGES ∧
    (aggLoop upOne 30 (2 + 1) "" []).2 = [Ev.fetch] ∧
    numFetches (aggregate upHundred 10).2 = 1 := by
  refine ⟨aggregation_fetch_bounds.1 upLoop 50, ?_, ?_⟩
  · exact aggregation_fetch_bounds.2.1 upOne 30 2 "" [] ⟨[rawTiny], none⟩ rfl
      (Or.inl rfl)
  · refine aggregation_fetch_bounds.2.2 upHundred ?_
    intro c page h
    have h2 : (⟨List.replicate 100 rawTiny, some "c"⟩ : Page) = page :=
      Except.ok.inj h
    rw [← h2]
    decide

/-- C9 counterexample: with an upstream whose pages always carry a live
cursor and a single record, and limit 50, the courtesy delay of line 89
runs right after the third and final page fetch, because the sleep happens
before the while condition pages < MAX_PAGES is re-checked: the trace ends
with a sleep event. -/
theorem trailing_sleep_cex :
    (aggregate upLoop 50).2 =
      [Ev.fetch, Ev.sleep300, Ev.fetch, Ev.sleep300, Ev.fetch, Ev.sleep300] ∧
    (aggregate upLoop 50).2.getLast? = some Ev.sleep300 := by decide

/-- C9 amended: every pagination trace is n ≤ 3 fetches separated by
sleeps; a trailing delay (one not followed by a further fetch) can occur,
but only when the loop decided to continue exactly as the 3-page budget ran
out, in which case the trace has exactly MAX_PAGES fetches; on early
termination via a missing cursor or the limit * 2 guard, the trace ends
with its final fetch and no delay follows it. -/
theorem sleep_between_fetches_amended :
    ∀ up : Upstream, ∀ limit : Int,
      (∃ n b, (aggregate up limit).2 = mkTrace n b ∧ n ≤ MAX_PAGES ∧
        (b = true → n = MAX_PAGES)) ∧
      ((aggregate up limit).2.getLast? = some Ev.sleep300 →
        numFetches (aggregate up limit).2 = MAX_PAGES) := by
  intro up limit
  obtain ⟨n, b, htr, hn, hb, -⟩ := aggLoop_shape up limit MAX_PAGES "" []
  have htr2 : (aggregate up limit).2 = mkTrace n b := htr
  constructor
  · exact ⟨n, b, htr2, hn, hb⟩
  · intro hlast
    rw [htr2] at hlast ⊢
    rw [numFetches_mkTrace]
    exact hb (mkTrace_getLast_sleep n b hlast)

/-- C9 amended witness: the structure theorem applied to the concrete
looping upstream with limit 50. -/
theorem sleep_between_fetches_amended_witness :
    (∃ n b, (aggregate upLoop 50).2 = mkTrace n b ∧ n ≤ MAX_PAGES ∧
      (b = true → n = MAX_PAGES)) ∧
    ((aggregate upLoop 50).2.getLast? = some Ev.sleep300 →
      numFetches (aggregate upLoop 50).2 = MAX_PAGES) :=
  sleep_between_fetches_amended upLoop 50

theorem ratNeg32_eq : ratNeg32 = (-3 : ℚ) / 2 := by
  rw [show ((-3 : ℚ)) = ((ratNeg32.num : Int) : ℚ) from by norm_num [ratNeg32],
    show ((2 : ℚ)) = ((ratNeg32.den : ℕ) : ℚ) from by norm_num [ratNeg32]]
  exact (Rat.num_div_den ratNeg32).symm

/-- C3 counterexample: Math.round rounds halves toward positive infinity,
not away from zero: for the fractional upstream ping -3/2 the canonical
ping is -1, while the round-half-away-from-zero law asserted by the claim
demands -2. -/
theorem rounding_negative_half_cex :
    (normalize rawHalf).ping = -1 ∧
    roundHalfAwayFromZero ratNeg32 = -2 ∧
    ¬((normalize rawHalf).ping = roundHalfAwayFromZero ratNeg32) := by
  have h1 : (normalize rawHalf).ping = -1 := by decide
  have h2 : roundHalfAwayFromZero ratNeg32 = -2 := by
    rw [roundHalfAwayFromZero, if_neg (by decide)]
    rw [ratNeg32_eq]
    rw [show (-((-3 : ℚ) / 2) + 1/2) = ((2 : Int) : ℚ) by norm_num]
    rw [Int.floor_intCast]
  refine ⟨h1, h2, ?_⟩
  rw [h1, h2]
  decide

/-- C3 amended: normalization is total with the stated defaults: players is
playing (0 when missing), maxPlayers defaults to 20, fps to 60, ping to 0,
and fps and ping are always integers obtained by rounding; but the rounding
is floor(x + 1/2), rounding halves toward positive infinity, which agrees
with round-half-away-from-zero exactly on nonnegative inputs. -/
theorem normalize_total_defaults_rounding :
    ∀ s : RawServerRecord,
      (normalize s).players = s.playing.getD 0 ∧
      (normalize s).maxPlayers = s.maxPlayers.getD 20 ∧
      (normalize s).fps = ⌊s.fps.getD 60 + 1/2⌋ ∧
      (normalize s).ping = ⌊s.ping.getD 0 + 1/2⌋ ∧
      (s.playing = none → (normalize s).players = 0) ∧
      (s.maxPlayers = none → (normalize s).maxPlayers = 20) ∧
      (s.fps = none → (normalize s).fps = 60) ∧
      (s.ping = none → (normalize s).ping = 0) ∧
      (∀ q : ℚ, 0 ≤ q → jsRound q = roundHalfAwayFromZero q) := by
  intro s
  refine ⟨rfl, rfl, jsRound_eq_floor _, jsRound_eq_floor _, ?_, ?_, ?_, ?_, ?_⟩
  · intro h
    simp [normalize, h]
  · intro h
    simp [normalize, h]
  · intro h
    simp only [normalize, h, Option.getD_none]
    decide
  · intro h
    simp only [normalize, h, Option.getD_none]
    decide
  · intro q hq
    rw [roundHalfAwayFromZero, if_pos hq, jsRound_eq_floor]

/-- C3 amended witness: the normalization equations at the concrete record
with the missing fields, and the rounding agreement at the nonnegative
rational 1. -/
theorem normalize_total_defaults_rounding_witness :
    (normalize rawHalf).players = 0 ∧
    (normalize rawHalf).maxPlayers = 20 ∧
    (normalize rawHalf).fps = 60 ∧
    jsRound 1 = roundHalfAwayFromZero 1 :=
  ⟨(normalize_total_defaults_rounding rawHalf).2.2.2.2.1 rfl,
    (normalize_total_defaults_rounding rawHalf).2.2.2.2.2.1 rfl,
    (normalize_total_defaults_rounding rawHalf).2.2.2.2.2.2.1 rfl,
    (normalize_total_defaults_rounding rawHalf).2.2.2.2.2.2.2.2 1 (by norm_num)⟩

/-- C6 counterexample: the computed limit is not clamped from below: the
supplied limit -5 is numeric, parses to -5, survives the upper-only
Math.min clamp, and is used as is, outside [1, 100]. -/
theorem limit_lower_bound_cex :
    effectiveLimit (some "-5") = -5 ∧
    ¬(1 ≤ effectiveLimit (some "-5") ∧ effectiveLimit (some "-5") ≤ 100) := by
  decide

/-- C6 amended: the effective limit is at most 100; a supplied nonzero
numeric limit v becomes min v 100 (so 9999 becomes 100); an absent,
non-numeric, or zero limit becomes 30 before the clamp; but there is no
lower bound, so negative supplied limits pass through unclamped. -/
theorem limit_clamp_amended :
    (∀ limQ : Option String, effectiveLimit limQ ≤ 100) ∧
    effectiveLimit none = 30 ∧
    (∀ s : String, parseIntJs s = none → effectiveLimit (some s) = 30) ∧
    (∀ s : String, parseIntJs s = some 0 → effectiveLimit (some s) = 30) ∧
    (∀ s : String, ∀ v : Int, parseIntJs s = some v → v ≠ 0 →
      effectiveLimit (some s) = min v 100) ∧
    effectiveLimit (some "9999") = 100 := by
  refine ⟨fun limQ => min_le_right _ _, by decide, ?_, ?_, ?_, by decide⟩
  · intro s h
    simp [effectiveLimit, h]
  · intro s h
    simp [effectiveLimit, h]
  · intro s v h hv
    simp [effectiveLimit, h, hv]

/-- C6 amended witness: the amended clamp law at the concrete inputs
"abc", "0" and "50". -/
theorem limit_clamp_amended_witness :
    effectiveLimit (some "abc") = 30 ∧
    effectiveLimit (some "0") = 30 ∧
    effectiveLimit (some "50") = min 50 100 :=
  ⟨limit_clamp_amended.2.2.1 "abc" (by decide),
    limit_clamp_amended.2.2.2.1 "0" (by decide),
    limit_clamp_amended.2.2.2.2.1 "50" 50 (by decide) (by decide)⟩

/-- The three-record canonical list used in concrete runs. -/
def threeCanon : List CanonicalServerRecord := [raw3a, raw3b, raw3c].map normalize

/-- C1 counterexample: with the reachable effective limit -1 (the query
limit=-1 parses and the clamp has no lower bound), slice(0, -1) is not a
prefix of length min(limit, total): for a three-record aggregation the
response has total 3 but count 2, and min(-1, 3) = -1, which is not 2. -/
theorem negative_limit_count_cex :
    effectiveLimit (some "-1") = -1 ∧
    (handle upThree (some "1") (some "-1") emptyCache 0).1 =
      Response.ok (buildResponseData "1" threeCanon (-1)) ∧
    (buildResponseData "1" threeCanon (-1)).total = 3 ∧
    (buildResponseData "1" threeCanon (-1)).count = 2 ∧
    ¬(((buildResponseData "1" threeCanon (-1)).count : Int) =
      min (-1 : Int) (((buildResponseData "1" threeCanon (-1)).total : Int))) := by
  decide

/-- C1 amended: for every response built from aggregated records and a
limit, total is the number of aggregated records and count is the length of
servers; when the limit is nonnegative, servers is the prefix of the ranked
list of length min(limit, total) and count = min(limit, total); when the
limit is negative (reachable, since the clamp has no lower bound),
slice(0, limit) keeps all but the last |limit| elements, so count =
max(total + limit, 0). -/
theorem response_count_amended :
    ∀ pid : String, ∀ recs : List CanonicalServerRecord, ∀ limit : Int,
      (buildResponseData pid recs limit).total = recs.length ∧
      (buildResponseData pid recs limit).count =
        (buildResponseData pid recs limit).servers.length ∧
      (0 ≤ limit →
        (buildResponseData pid recs limit).servers =
          (rank recs).take (min limit.toNat recs.length) ∧
        (buildResponseData pid recs limit).count = min limit.toNat recs.length) ∧
      (limit < 0 →
        (buildResponseData pid recs limit).count =
          ((recs.length : Int) + limit).toNat) := by
  intro pid recs limit
  refine ⟨?_, rfl, ?_, ?_⟩
  · simp [buildResponseData, rank_length]
  · intro h0
    have hns : ¬(limit < 0) := not_lt.mpr h0
    constructor
    · simp only [buildResponseData, jsSlice, if_neg hns]
      refine List.take_eq_take.mpr ?_
      rw [rank_length, min_assoc, min_self]
    · simp only [buildResponseData, jsSlice, if_neg hns, List.length_take,
        rank_length]
  · intro hneg
    simp only [buildResponseData, jsSlice, if_pos hneg, List.length_take,
      rank_length]
    omega

/-- C1 amended witness: the count law at a three-record aggregation with
limits 2 and -1. -/
theorem response_count_amended_witness :
    (buildResponseData "1" threeCanon 2).count =
      min (2 : Int).toNat threeCanon.length ∧
    (buildResponseData "1" threeCanon (-1)).count =
      ((threeCanon.length : Int) + (-1)).toNat :=
  ⟨((response_count_amended "1" threeCanon 2).2.2.1 (by decide)).2,
    (response_count_amended "1" threeCanon (-1)).2.2.2 (by decide)⟩

/-- C7 counterexample: the whitespace-only placeId " " is not
numeric-looking, yet it is truthy and Number(" ") is 0, not NaN, so the
handler does not fail validation: it issues an upstream page fetch and
answers 200. -/
theorem whitespace_placeId_accepted_cex :
    jsNumberIsNaN " " = false ∧
    (handle upOne (some " ") none emptyCache 0).1 =
      Response.ok ⟨" ", 1, 1, [⟨"a", 1, 20, 60, 0⟩]⟩ ∧
    (handle upOne (some " ") none emptyCache 0).2.2 = [Ev.fetch] := by
  decide

/-- C7 amended: a request whose placeId is absent, empty, or converts to
NaN (for example "abc") fails with the 400 error body and performs no
upstream fetch; but not every non-numeric-looking string is rejected:
whitespace-only strings convert to 0 and are accepted. -/
theorem invalid_placeId_rejected :
    (∀ up : Upstream, ∀ limQ : Option String, ∀ cache : Cache, ∀ now : Int,
      handle up none limQ cache now =
        (Response.badRequest "Missing or invalid placeId", cache, [])) ∧
    (∀ up : Upstream, ∀ pid : String, ∀ limQ : Option String, ∀ cache : Cache,
      ∀ now : Int, pid = "" ∨ jsNumberIsNaN pid = true →
      handle up (some pid) limQ cache now =
        (Response.badRequest "Missing or invalid placeId", cache, [])) ∧
    jsNumberIsNaN "abc" = true := by
  refine ⟨fun up limQ cache now => rfl, ?_, by decide⟩
  intro up pid limQ cache now h
  exact handle_invalid_some up pid limQ cache now h

/-- C7 amended witness: the rejection at the concrete non-numeric placeId
"abc": 400 body, cache untouched, empty event trace. -/
theorem invalid_placeId_rejected_witness :
    handle up429 (some "abc") none emptyCache 0 =
      (Response.badRequest "Missing or invalid placeId", emptyCache, []) :=
  invalid_placeId_rejected.2.1 up429 "abc" none emptyCache 0 (Or.inr (by decide))

/-- C8: a non-success upstream status makes the fetch fail with the status
embedded in its message, aggregation aborts at once (one fetch, nothing
after it), the handler answers with the 500-equivalent serverError carrying
that message and leaves the cache untouched; and on the cache-miss path
every request yields either such a structured error or a full ranked
truncated result stored in the cache, never a mix. -/
theorem upstream_error_aborts :
    (∀ up : Upstream, ∀ limit : Int, ∀ fuel : Nat, ∀ cur : String,
      ∀ acc : List CanonicalServerRecord, ∀ st : Nat,
      up cur = Except.error st →
      aggLoop up limit (fuel + 1) cur acc = (Except.error st, [Ev.fetch])) ∧
    (∀ up : Upstream, ∀ pid : String, ∀ limQ : Option String, ∀ cache : Cache,
      ∀ now : Int, ∀ st : Nat, ∀ tr : List Ev,
      ¬(pid = "" ∨ jsNumberIsNaN pid = true) → cache pid = none →
      aggregate up (effectiveLimit limQ) = (Except.error st, tr) →
      handle up (some pid) limQ cache now =
        (Response.serverError (upstreamErrMsg st pid), cache, tr)) ∧
    (∀ up : Upstream, ∀ pid : String, ∀ limQ : Option String, ∀ cache : Cache,
      ∀ now : Int,
      ¬(pid = "" ∨ jsNumberIsNaN pid = true) → cache pid = none →
      (∃ st tr, handle up (some pid) limQ cache now =
          (Response.serverError (upstreamErrMsg st pid), cache, tr)) ∨
      (∃ recs tr, aggregate up (effectiveLimit limQ) = (Except.ok recs, tr) ∧
        handle up (some pid) limQ cache now =
          (Response.ok (buildResponseData pid recs (effectiveLimit limQ)),
            updateCache cache pid
              (CacheEntry.mk (buildResponseData pid recs (effectiveLimit limQ)) now),
            tr))) := by
  refine ⟨fun up limit fuel cur acc st hup => aggLoop_error up limit fuel cur acc st hup,
    ?_, ?_⟩
  · intro up pid limQ cache now st tr hv hnone hagg
    rw [handle_miss up pid limQ cache now hv hnone]
    exact missPath_error up pid (effectiveLimit limQ) cache now st tr hagg
  · intro up pid limQ cache now hv hnone
    rcases hagg : aggregate up (effectiveLimit limQ) with ⟨res, tr⟩
    cases res with
    | error st =>
      left
      refine ⟨st, tr, ?_⟩
      rw [handle_miss up pid limQ cache now hv hnone]
      exact missPath_error up pid (effectiveLimit limQ) cache now st tr hagg
    | ok recs =>
      right
      refine ⟨recs, tr, rfl, ?_⟩
      rw [handle_miss up pid limQ cache now hv hnone]
      exact missPath_ok up pid (effectiveLimit limQ) cache now recs tr hagg

/-- C8 witness: the concrete 429 upstream: immediate abort of the loop and
the 500 response with the status embedded, cache untouched. -/
theorem upstream_error_aborts_witness :
    aggLoop up429 10 (2 + 1) "" [] = (Except.error 429, [Ev.fetch]) ∧
    handle up429 (some "123") (some "10") emptyCache 0 =
      (Response.serverError (upstreamErrMsg 429 "123"), emptyCache, [Ev.fetch]) :=
  ⟨upstream_error_aborts.1 up429 10 2 "" [] 429 rfl,
    upstream_error_aborts.2.1 up429 "123" (some "10") emptyCache 0 429
      [Ev.fetch] (by decide) rfl rfl⟩

/-- C5: a cache entry is served verbatim exactly when now - createdAt <
CACHE_TTL_MS at read time; a stale entry sends the request down the miss
path, which on success overwrites the entry with freshly built data at the
new timestamp; and in the two-request scenario a second request within the
TTL returns the first response unchanged whatever the upstream would now
return, while a request at or past the TTL recomputes from the new
upstream. -/
theorem cache_freshness_ttl :
    (∀ up : Upstream, ∀ pid : String, ∀ limQ : Option String, ∀ cache : Cache,
      ∀ now : Int, ∀ e : CacheEntry,
      ¬(pid = "" ∨ jsNumberIsNaN pid = true) → cache pid = some e →
      ((now - e.timestamp < CACHE_TTL_MS →
        handle up (some pid) limQ cache now = (Response.ok e.data, cache, [])) ∧
       (¬(now - e.timestamp < CACHE_TTL_MS) →
        handle up (some pid) limQ cache now =
          missPath up pid (effectiveLimit limQ) cache now ∧
        ∀ recs tr, aggregate up (effectiveLimit limQ) = (Except.ok recs, tr) →
          (handle up (some pid) limQ cache now).2.1 pid =
            some (CacheEntry.mk
              (buildResponseData pid recs (effectiveLimit limQ)) now)))) ∧
    (∀ up1 up2 : Upstream, ∀ pid : String, ∀ limQ : Option String,
      ∀ cache : Cache, ∀ t0 t1 t2 : Int, ∀ d : ResponseData, ∀ c1 : Cache,
      ∀ tr1 : List Ev,
      ¬(pid = "" ∨ jsNumberIsNaN pid = true) → cache pid = none →
      handle up1 (some pid) limQ cache t0 = (Response.ok d, c1, tr1) →
      ((t1 - t0 < CACHE_TTL_MS →
        handle up2 (some pid) limQ c1 t1 = (Response.ok d, c1, [])) ∧
       (¬(t2 - t0 < CACHE_TTL_MS) →
        handle up2 (some pid) limQ c1 t2 =
          missPath up2 pid (effectiveLimit limQ) c1 t2))) := by
  constructor
  · intro up pid limQ cache now e hv he
    constructor
    · intro hf
      exact handle_hit up pid limQ cache now e hv he hf
    · intro hs
      have hst := handle_stale up pid limQ cache now e hv he hs
      refine ⟨hst, ?_⟩
      intro recs tr hagg
      rw [hst, missPath_ok up pid (effectiveLimit limQ) cache now recs tr hagg]
      exact updateCache_self cache pid _
  · intro up1 up2 pid limQ cache t0 t1 t2 d c1 tr1 hv hnone h1
    rw [handle_miss up1 pid limQ cache t0 hv hnone] at h1
    rcases hagg : aggregate up1 (effectiveLimit limQ) with ⟨res, tr⟩
    cases res with
    | error st =>
      rw [missPath_error up1 pid (effectiveLimit limQ) cache t0 st tr hagg] at h1
      simp at h1
    | ok recs =>
      rw [missPath_ok up1 pid (effectiveLimit limQ) cache t0 recs tr hagg] at h1
      simp only [Prod.mk.injEq, Response.ok.injEq] at h1
      obtain ⟨hd, hc, htr⟩ := h1
      have hc1 : c1 pid = some (CacheEntry.mk d t0) := by
        rw [← hc, ← hd]
        exact updateCache_self cache pid _
      constructor
      · intro hfresh
        exact handle_hit up2 pid limQ c1 t1 (CacheEntry.mk d t0) hv hc1 hfresh
      · intro hstale
        exact handle_stale up2 pid limQ c1 t2 (CacheEntry.mk d t0) hv hc1 hstale

/-- Concrete response data for a pre-seeded cache entry. -/
def dataA : ResponseData := ⟨"123", 0, 0, []⟩

/-- Concrete cache entry created at time 0. -/
def entryA : CacheEntry := ⟨dataA, 0⟩

/-- Cache holding entryA under placeId "123". -/
def cacheA : Cache := fun k => if k = "123" then some entryA else none

/-- Response of the first concrete request against upOne with limit 10. -/
def dOne : ResponseData := buildResponseData "123" ([rawTiny].map normalize) 10

/-- Cache state after that first request at time 0. -/
def c1One : Cache := updateCache emptyCache "123" ⟨dOne, 0⟩

/-- C5 witness: the fresh-entry hit at time 5, the scenario second request
at time 6 against a changed upstream returning the first response, and the
request at time 20000 going back to the miss path. -/
theorem cache_freshness_ttl_witness :
    handle up429 (some "123") (some "10") cacheA 5 =
      (Response.ok dataA, cacheA, []) ∧
    handle upOne2 (some "123") (some "10") c1One 6 =
      (Response.ok dOne, c1One, []) ∧
    handle upOne2 (some "123") (some "10") c1One 20000 =
      missPath upOne2 "123" (effectiveLimit (some "10")) c1One 20000 := by
  refine ⟨?_, ?_, ?_⟩
  · exact (cache_freshness_ttl.1 up429 "123" (some "10") cacheA 5 entryA
      (by decide) rfl).1 (by decide)
  · exact (cache_freshness_ttl.2 upOne upOne2 "123" (some "10") emptyCache 0 6
      20000 dOne c1One [Ev.fetch] (by decide) rfl rfl).1 (by decide)
  · exact (cache_freshness_ttl.2 upOne upOne2 "123" (some "10") emptyCache 0 6
      20000 dOne c1One [Ev.fetch] (by decide) rfl rfl).2 (by decide)

/-- C10: the cache is keyed by placeId alone: after a successful first
request, a second request for the same placeId within the TTL returns the
first response verbatim whatever its own limit parameter is; the returned
data was built with the first request limit. -/
theorem cache_key_ignores_limit :
    ∀ up1 up2 : Upstream, ∀ pid : String, ∀ limQ1 limQ2 : Option String,
      ∀ cache : Cache, ∀ t0 t1 : Int, ∀ d : ResponseData, ∀ c1 : Cache,
      ∀ tr1 : List Ev,
      ¬(pid = "" ∨ jsNumberIsNaN pid = true) → cache pid = none →
      handle up1 (some pid) limQ1 cache t0 = (Response.ok d, c1, tr1) →
      t1 - t0 < CACHE_TTL_MS →
      handle up2 (some pid) limQ2 c1 t1 = (Response.ok d, c1, []) ∧
      ∃ recs tr, aggregate up1 (effectiveLimit limQ1) = (Except.ok recs, tr) ∧
        d = buildResponseData pid recs (effectiveLimit limQ1) := by
  intro up1 up2 pid limQ1 limQ2 cache t0 t1 d c1 tr1 hv hnone h1 hfresh
  rw [handle_miss up1 pid limQ1 cache t0 hv hnone] at h1
  rcases hagg : aggregate up1 (effectiveLimit limQ1) with ⟨res, tr⟩
  cases res with
  | error st =>
    rw [missPath_error up1 pid (effectiveLimit limQ1) cache t0 st tr hagg] at h1
    simp at h1
  | ok recs =>
    rw [missPath_ok up1 pid (effectiveLimit limQ1) cache t0 recs tr hagg] at h1
    simp only [Prod.mk.injEq, Response.ok.injEq] at h1
    obtain ⟨hd, hc, htr⟩ := h1
    have hc1 : c1 pid = some (CacheEntry.mk d t0) := by
      rw [← hc, ← hd]
      exact updateCache_self cache pid _
    exact ⟨handle_hit up2 pid limQ2 c1 t1 (CacheEntry.mk d t0) hv hc1 hfresh,
      recs, tr, rfl, hd.symm⟩

/-- Response of the first concrete request with limit 2 against the
three-record upstream. -/
def dTwo : ResponseData := buildResponseData "7" threeCanon 2

/-- Cache state after that request at time 0. -/
def c1Two : Cache := updateCache emptyCache "7" ⟨dTwo, 0⟩

/-- C10 witness: a second request with limit 100 within the TTL gets the
limit-2 response back: count 2, not min(100, total) = 3. -/
theorem cache_key_ignores_limit_witness :
    handle upThree (some "7") (some "100") c1Two 5 =
      (Response.ok dTwo, c1Two, []) ∧
    dTwo.count = 2 ∧
    ¬(dTwo.count = min (effectiveLimit (some "100")).toNat dTwo.total) :=
  ⟨(cache_key_ignores_limit upThree upThree "7" (some "2") (some "100")
      emptyCache 0 5 dTwo c1Two [Ev.fetch] (by decide) rfl rfl (by decide)).1,
    by decide, by decide⟩

end ProxyServer
